import Mathlib

/-!
Shallow embedding of the Freya `Model` class (src/freya/model/__init__.py)
and verification of its specification.

The value type of the external numeric arrays is abstracted as a type `V`.
A layer is embedded as a record of its observable interface: a `type` tag
string, an opaque parameter blob `params`, a `forwardFn`, the two possible
backward shapes (`backwardFn` returning one value, `backwardFn3` returning a
triple), and an `optimizeFn` producing updated parameters.  The core's
control flow (`predict`, `train`, `_run_epoch`) is translated statement by
statement; Python exceptions become `Except` errors, `print` calls become an
explicit output list, and the backward loop additionally records an event
trace so that ordering claims can be stated.
-/

namespace Freya

/-- Layer interface consumed polymorphically by the core.  `params` is the
layer's parameter state (opaque to the core); `forwardFn`, `backwardFn`,
`backwardFn3` and `optimizeFn` take the current parameters first.
`backwardFn` is the single-return backward used for non-parametric layers;
`backwardFn3` is the triple-return backward (input gradient, weight
gradient, bias gradient) used for parametric layers.  Which one the core
calls is decided by the `type` tag, mirroring the source. -/
structure Layer (V : Type) where
  type : String
  params : V
  forwardFn : V → V → V
  backwardFn : V → V → V
  backwardFn3 : V → V → V × V × V
  optimizeFn : V → V → V → ℚ → V

/-- External loss units `BinaryCrossEntropy` and `MeanSquaredError`,
each constructed from (predicted, target); `..F` is the scalar
`loss.forward()`, `..B` is the gradient `loss.backward()`. -/
structure LossDefs (V : Type) where
  bceF : V → V → V
  bceB : V → V → V
  mseF : V → V → V
  mseB : V → V → V

/-- The Model state: `layers` (insertion order) and `loss`
(the loss history, `self.loss` in the source). -/
structure Model (V : Type) where
  layers : List (Layer V)
  loss : List V

/-- Errors the core can raise: `nameError` models the Python `NameError`
from referencing the unbound `forward` variable on an empty layer list;
`valueError` carries the message of the raised `ValueError`. -/
inductive EpochErr where
  | nameError : EpochErr
  | valueError : String → EpochErr
deriving DecidableEq

/-- Events of the backward loop, recorded in program order: `bwd i gin gout`
is a single-return backward call on layer `i`; `bwd3 i gin gout dW dB` is a
triple-return backward call; `opt i dW dB lr` is an optimize call. -/
inductive Ev (V : Type) where
  | bwd : ℕ → V → V → Ev V
  | bwd3 : ℕ → V → V → V → V → Ev V
  | opt : ℕ → V → V → ℚ → Ev V
deriving DecidableEq

variable {V : Type}

/-- Forward loop of `predict` and `_run_epoch` (lines 56-58 / 121-123):
`for i, _ in enumerate(self.layers): forward = layers[i].forward(X); X = forward`.
The state is the pair (current `X`, last bound `forward`); the `forward`
variable starts unbound (`none`). -/
def forwardOpt (ls : List (Layer V)) (X : V) : Option V :=
  (ls.foldl (fun acc l => ((l.forwardFn l.params acc.1), some (l.forwardFn l.params acc.1)))
    (X, (none : Option V))).2

/-- Composition of the layers' forward operations in insertion order,
threading each output into the next layer; this is the specification-side
composition `Ln.forward(...(L1.forward(X))...)`. -/
def forwardPass (ls : List (Layer V)) (X : V) : V :=
  ls.foldl (fun a l => l.forwardFn l.params a) X

/-- Embedding of `Model.predict` (lines 39-60): runs the forward loop and
returns the last value bound to `forward`; `none` models the `NameError`
raised when `layers` is empty and `forward` was never bound. -/
def predict (m : Model V) (X : V) : Option V :=
  forwardOpt m.layers X

/-- One iteration of the backpropagation loop body (lines 140-144) on the
indexed layer `(i, l)` with incoming gradient `g`: if the type tag is not
`Linear` the single-return backward is called; otherwise the triple-return
backward is called and `optimize` runs immediately.  Returns the updated
indexed layer, the outgoing gradient, and the events in program order. -/
def backStep (lr : ℚ) (i : ℕ) (l : Layer V) (g : V) :
    (ℕ × Layer V) × V × List (Ev V) :=
  if l.type ≠ "Linear" then
    ((i, l), l.backwardFn l.params g, [Ev.bwd i g (l.backwardFn l.params g)])
  else
    let t := l.backwardFn3 l.params g
    (((i, { l with params := l.optimizeFn l.params t.2.1 t.2.2 lr })), t.1,
      [Ev.bwd3 i g t.1 t.2.1 t.2.2, Ev.opt i t.2.1 t.2.2 lr])

/-- The backpropagation loop over an indexed layer list already put in
iteration order, threading the gradient; collects the processed layers in
iteration order and the events in program order. -/
def backpropAux (lr : ℚ) : List (ℕ × Layer V) → V →
    List (ℕ × Layer V) × V × List (Ev V)
  | [], g => ([], g, [])
  | (i, l) :: rest, g =>
    let s := backStep lr i l g
    let r := backpropAux lr rest s.2.1
    (s.1 :: r.1, r.2.1, s.2.2 ++ r.2.2)

/-- Embedding of the backpropagation loop (lines 138-144):
`for i, _ in reversed(list(enumerate(self.layers)))`.  The layers are
enumerated, reversed, iterated by `backpropAux`, and the in-place updates
are read back in insertion order. -/
def backprop (lr : ℚ) (ls : List (Layer V)) (g : V) :
    List (Layer V) × V × List (Ev V) :=
  let r := backpropAux lr ls.enum.reverse g
  (r.1.reverse.map Prod.snd, r.2.1, r.2.2)

/-- Tail of `_run_epoch` after a loss unit has been selected (lines
133-146): compute `error = loss_f.forward()` and `gradient =
loss_f.backward()` (here passed in already applied), append the error to
`self.loss`, run backpropagation, and return the error. -/
def epochFinish (m : Model V) (lr : ℚ) (err grad : V) :
    Model V × V × List (Ev V) :=
  let r := backprop lr m.layers grad
  ({ layers := r.1, loss := m.loss ++ [err] }, err, r.2.2)

/-- Embedding of `Model._run_epoch` (lines 96-146).  On success it returns
the updated model, the epoch's error, and the backward-pass event trace; on
failure it returns the error together with the model state at raise time
(Python objects keep their state when an exception propagates). -/
def runEpoch (L : LossDefs V) (m : Model V) (X Y : V) (lr : ℚ)
    (sel : String) :
    Except (EpochErr × Model V) (Model V × V × List (Ev V)) :=
  let fwd := forwardOpt m.layers X
  if sel = "BinaryCrossEntropy" then
    match fwd with
    | none => Except.error (EpochErr.nameError, m)
    | some f => Except.ok (epochFinish m lr (L.bceF f Y) (L.bceB f Y))
  else if sel = "MeanSquaredError" then
    match fwd with
    | none => Except.error (EpochErr.nameError, m)
    | some f => Except.ok (epochFinish m lr (L.mseF f Y) (L.mseB f Y))
  else
    Except.error (EpochErr.valueError (sel ++ " is not supported."), m)

/-- The epoch loop of `Model.train` (lines 89-94): `k` epochs remain, `e` is
the current epoch index, `out` accumulates the printed progress lines as
(epoch index, loss) pairs. -/
def trainGo (L : LossDefs V) (X Y : V) (lr : ℚ) (sel : String)
    (verbose : Bool) :
    ℕ → ℕ → Model V → List (ℕ × V) →
    Except (EpochErr × Model V) (Model V × List (ℕ × V))
  | 0, _, m, out => Except.ok (m, out)
  | Nat.succ k, e, m, out =>
    match runEpoch L m X Y lr sel with
    | Except.error err => Except.error err
    | Except.ok r =>
      let out1 := if verbose then
          (if e % 50 = 0 then out ++ [(e, r.2.1)] else out)
        else out
      trainGo L X Y lr sel verbose k (e + 1) r.1 out1

/-- Embedding of `Model.train` (lines 62-94).  `epochs` is an integer as in
Python; `range(epochs)` is empty when `epochs <= 0`, hence `epochs.toNat`
iterations starting at epoch index 0. -/
def train (L : LossDefs V) (m : Model V) (X Y : V) (lr : ℚ)
    (epochs : ℤ) (sel : String) (verbose : Bool) :
    Except (EpochErr × Model V) (Model V × List (ℕ × V)) :=
  trainGo L X Y lr sel verbose epochs.toNat 0 m []

/-- Scalar error of one epoch run from state `m`: the selected loss unit's
`forward()` applied to the forward output and the targets. -/
def epochError (L : LossDefs V) (X Y : V) (sel : String) (m : Model V) : V :=
  if sel = "BinaryCrossEntropy" then L.bceF (forwardPass m.layers X) Y
  else L.mseF (forwardPass m.layers X) Y

/-- Initial gradient of one epoch run from state `m`: the selected loss
unit's `backward()` applied to the forward output and the targets. -/
def epochGrad (L : LossDefs V) (X Y : V) (sel : String) (m : Model V) : V :=
  if sel = "BinaryCrossEntropy" then L.bceB (forwardPass m.layers X) Y
  else L.mseB (forwardPass m.layers X) Y

/-- State transformer of one epoch: the model after `_run_epoch`, or the
unchanged model when the epoch raises. -/
def stepModel (L : LossDefs V) (X Y : V) (lr : ℚ) (sel : String)
    (m : Model V) : Model V :=
  match runEpoch L m X Y lr sel with
  | Except.ok r => r.1
  | Except.error _ => m

/-- Progress lines printed by the verbose training loop, starting at epoch
index `e` with `k` epochs remaining from state `m`. -/
def printsAux (L : LossDefs V) (X Y : V) (lr : ℚ) (sel : String) :
    ℕ → ℕ → Model V → List (ℕ × V)
  | _, 0, _ => []
  | e, Nat.succ k, m =>
    (if e % 50 = 0 then [(e, epochError L X Y sel m)] else []) ++
      printsAux L X Y lr sel (e + 1) k (stepModel L X Y lr sel m)

/-- Big-step relation of `_run_epoch`: one constructor per control path of
the source (each supported loss with bound or unbound `forward`, and the
unsupported-selector raise).  Used to state that the epoch routine is
deterministic. -/
inductive EpochRel (L : LossDefs V) (X Y : V) (lr : ℚ) (m : Model V)
    (sel : String) :
    Except (EpochErr × Model V) (Model V × V × List (Ev V)) → Prop where
  | bce (f : V) : sel = "BinaryCrossEntropy" →
      forwardOpt m.layers X = some f →
      EpochRel L X Y lr m sel
        (Except.ok (epochFinish m lr (L.bceF f Y) (L.bceB f Y)))
  | bceEmpty : sel = "BinaryCrossEntropy" →
      forwardOpt m.layers X = none →
      EpochRel L X Y lr m sel (Except.error (EpochErr.nameError, m))
  | mse (f : V) : sel = "MeanSquaredError" →
      forwardOpt m.layers X = some f →
      EpochRel L X Y lr m sel
        (Except.ok (epochFinish m lr (L.mseF f Y) (L.mseB f Y)))
  | mseEmpty : sel = "MeanSquaredError" →
      forwardOpt m.layers X = none →
      EpochRel L X Y lr m sel (Except.error (EpochErr.nameError, m))
  | unsupported : sel ≠ "BinaryCrossEntropy" → sel ≠ "MeanSquaredError" →
      EpochRel L X Y lr m sel
        (Except.error (EpochErr.valueError (sel ++ " is not supported."), m))

/-- Concrete loss functions over `ℤ` used to instantiate the theorems. -/
def cLossDefs : LossDefs ℤ :=
  { bceF := fun f y => f - y
    bceB := fun f y => f - y
    mseF := fun f y => (f - y) * (f - y)
    mseB := fun f y => 2 * (f - y) }

/-- Concrete parametric layer (tag `Linear`) over `ℤ`. -/
def cLinear : Layer ℤ :=
  { type := "Linear"
    params := 2
    forwardFn := fun p x => p * x
    backwardFn := fun p g => p * g
    backwardFn3 := fun p g => (p * g, g, g)
    optimizeFn := fun p dW _ _ => p - dW }

/-- Concrete non-parametric layer (tag `ReLU`) over `ℤ`. -/
def cReLU : Layer ℤ :=
  { type := "ReLU"
    params := 0
    forwardFn := fun _ x => x
    backwardFn := fun _ g => g
    backwardFn3 := fun _ g => (g, g, g)
    optimizeFn := fun p _ _ _ => p }

/-- Concrete two-layer model over `ℤ`. -/
def cModel : Model ℤ := { layers := [cLinear, cReLU], loss := [] }

/-- Concrete empty model over `ℤ`. -/
def cEmpty : Model ℤ := { layers := [], loss := [] }

/-- The forward loop on a non-empty layer list, started from any pair of
current input and previously bound `forward`, ends with the composed
forward value bound. -/
theorem forwardFold_ne_nil (ls : List (Layer V)) (hne : ls ≠ []) :
    ∀ (X : V) (o : Option V),
      ls.foldl (fun acc l =>
          ((l.forwardFn l.params acc.1), some (l.forwardFn l.params acc.1)))
        (X, o) = (forwardPass ls X, some (forwardPass ls X)) := by
  induction ls with
  | nil => exact absurd rfl hne
  | cons l rest ih =>
    intro X o
    by_cases h : rest = []
    · subst h
      simp [forwardPass]
    · simp only [List.foldl_cons]
      rw [ih h]
      simp [forwardPass]

/-- On a non-empty layer list the forward loop binds `forward` to the
composition of the layers' forward operations. -/
theorem forwardOpt_of_ne_nil (ls : List (Layer V)) (X : V) (hne : ls ≠ []) :
    forwardOpt ls X = some (forwardPass ls X) := by
  unfold forwardOpt
  rw [forwardFold_ne_nil ls hne]

/-- On an empty layer list the `forward` variable is never bound. -/
theorem forwardOpt_nil (X : V) : forwardOpt ([] : List (Layer V)) X = none := rfl

/-- C2: for every model with a non-empty layer sequence and every input,
`predict` returns the composition of the layers' forward operations in
insertion order: each layer consumes the previous layer's output and the
final layer's output is returned. -/
theorem c2_predict_is_forward_composition (m : Model V) (X : V)
    (hne : m.layers ≠ []) :
    predict m X = some (forwardPass m.layers X) :=
  forwardOpt_of_ne_nil m.layers X hne

/-- Witness for C2 at a concrete two-layer model over `ℤ`. -/
theorem c2_predict_is_forward_composition_witness :
    predict cModel 5 = some (forwardPass cModel.layers 5) :=
  c2_predict_is_forward_composition cModel 5 (by simp [cModel])

/-- C8: on a model whose layer sequence is empty, `predict` fails for every
input: the loop body never binds the `forward` variable, so the return
references an undefined value (modelled as `none`). -/
theorem c8_predict_empty_fails (X : V) (hist : List V) :
    predict { layers := ([] : List (Layer V)), loss := hist } X = none := rfl

/-- The backpropagation loop returns as many processed layers as it was
given. -/
theorem backpropAux_length (lr : ℚ) :
    ∀ (ps : List (ℕ × Layer V)) (g : V),
      (backpropAux lr ps g).1.length = ps.length := by
  intro ps
  induction ps with
  | nil => intro g; rfl
  | cons p rest ih =>
    intro g
    cases p with
    | mk i l => simp [backpropAux, ih]

/-- Backpropagation preserves the number of layers. -/
theorem backprop_length (lr : ℚ) (ls : List (Layer V)) (g : V) :
    (backprop lr ls g).1.length = ls.length := by
  simp [backprop, backpropAux_length, List.enum_length]

/-- Peeling the last layer off the backpropagation loop: the last layer is
processed first (one `backStep`), and the remaining (earlier) layers are
processed with the gradient that step returned. -/
theorem backprop_snoc (lr : ℚ) (ls : List (Layer V)) (l : Layer V) (g : V) :
    backprop lr (ls ++ [l]) g =
      ((backprop lr ls (backStep lr ls.length l g).2.1).1 ++
          [(backStep lr ls.length l g).1.2],
        (backprop lr ls (backStep lr ls.length l g).2.1).2.1,
        (backStep lr ls.length l g).2.2 ++
          (backprop lr ls (backStep lr ls.length l g).2.1).2.2) := by
  have he : (ls ++ [l]).enum.reverse = (ls.length, l) :: ls.enum.reverse := by
    simp [List.enum_append]
  unfold backprop
  rw [he]
  simp [backpropAux]

/-- C1: the backward pass visits the layers in strict reverse insertion
order.  For the last layer of `ls ++ [l]`: if `l` is non-parametric
(type tag not `Linear`), the gradient is replaced by `l.backward(gradient)`
and that gradient is what the earlier layers `ls` are processed with; if
`l` is parametric (tag `Linear`), its backward returns the triple
`(gradient, weight_grad, bias_grad)`, the gradient component is threaded to
the earlier layers, and the optimize event with `(weight_grad, bias_grad,
learning_rate)` occurs immediately after `l`'s backward event and before
every event of the earlier layers. -/
theorem c1_backward_reverse_order_fused_optimize (lr : ℚ)
    (ls : List (Layer V)) (l : Layer V) (g : V) :
    backprop lr (ls ++ [l]) g =
      if l.type = "Linear" then
        let t := l.backwardFn3 l.params g
        let r := backprop lr ls t.1
        (r.1 ++ [{ l with params := l.optimizeFn l.params t.2.1 t.2.2 lr }],
          r.2.1,
          Ev.bwd3 ls.length g t.1 t.2.1 t.2.2 ::
            Ev.opt ls.length t.2.1 t.2.2 lr :: r.2.2)
      else
        let g1 := l.backwardFn l.params g
        let r := backprop lr ls g1
        (r.1 ++ [l], r.2.1, Ev.bwd ls.length g g1 :: r.2.2) := by
  rw [backprop_snoc]
  by_cases h : l.type = "Linear"
  · simp [backStep, h]
  · simp [backStep, h]

/-- Unfolding of one iteration of the backpropagation loop. -/
theorem backpropAux_cons (lr : ℚ) (j : ℕ) (l : Layer V)
    (rest : List (ℕ × Layer V)) (g : V) :
    backpropAux lr ((j, l) :: rest) g =
      ((backStep lr j l g).1 :: (backpropAux lr rest (backStep lr j l g).2.1).1,
        (backpropAux lr rest (backStep lr j l g).2.1).2.1,
        (backStep lr j l g).2.2 ++
          (backpropAux lr rest (backStep lr j l g).2.1).2.2) := by
  simp [backpropAux]

/-- The loop body on a layer whose tag is `Linear`: triple-return backward
followed immediately by the optimize call. -/
theorem backStep_linear (lr : ℚ) (j : ℕ) (l : Layer V) (g : V)
    (h : l.type = "Linear") :
    backStep lr j l g =
      ((j, { l with params := (l.optimizeFn l.params (l.backwardFn3 l.params g).2.1
          (l.backwardFn3 l.params g).2.2 lr) }),
        (l.backwardFn3 l.params g).1,
        [Ev.bwd3 j g (l.backwardFn3 l.params g).1 (l.backwardFn3 l.params g).2.1
            (l.backwardFn3 l.params g).2.2,
          Ev.opt j (l.backwardFn3 l.params g).2.1
            (l.backwardFn3 l.params g).2.2 lr]) := by
  simp [backStep, h]

/-- The loop body on a layer whose tag is not `Linear`: a single-return
backward call only. -/
theorem backStep_other (lr : ℚ) (j : ℕ) (l : Layer V) (g : V)
    (h : l.type ≠ "Linear") :
    backStep lr j l g =
      ((j, l), l.backwardFn l.params g, [Ev.bwd j g (l.backwardFn l.params g)]) := by
  simp [backStep, h]

/-- An optimize event for index `i` occurs in the backpropagation loop over
the indexed layers `ps` exactly when `ps` carries a layer at `i` whose type
tag is `Linear`. -/
theorem opt_mem_backpropAux (lr : ℚ) (i : ℕ) :
    ∀ (ps : List (ℕ × Layer V)) (g : V),
      (∃ dW dB, Ev.opt i dW dB lr ∈ (backpropAux lr ps g).2.2) ↔
        ∃ l, (i, l) ∈ ps ∧ l.type = "Linear" := by
  intro ps
  induction ps with
  | nil =>
    intro g
    simp [backpropAux]
  | cons p rest ih =>
    intro g
    cases p with
    | mk j l =>
      rw [backpropAux_cons]
      constructor
      · rintro ⟨dW, dB, hm⟩
        rcases List.mem_append.mp hm with hm1 | hm2
        · by_cases h : l.type = "Linear"
          · rw [backStep_linear lr j l g h] at hm1
            rcases List.mem_cons.mp hm1 with he | hm1x
            · exact absurd he (by simp)
            · rcases List.mem_cons.mp hm1x with he | hx
              · have hij : i = j := by
                  injection he
                exact ⟨l, by rw [hij]; exact List.mem_cons_self _ _, h⟩
              · simp at hx
          · rw [backStep_other lr j l g h] at hm1
            rcases List.mem_cons.mp hm1 with he | hx
            · exact absurd he (by simp)
            · simp at hx
        · obtain ⟨l1, hl1, hty⟩ := (ih _).mp ⟨dW, dB, hm2⟩
          exact ⟨l1, List.mem_cons_of_mem _ hl1, hty⟩
      · rintro ⟨l1, hl1, hty⟩
        rcases List.mem_cons.mp hl1 with he | hmem
        · have hij : i = j := by
            injection he with h1 h2
          have hll : l1 = l := by
            injection he with h1 h2
          refine ⟨(l.backwardFn3 l.params g).2.1, (l.backwardFn3 l.params g).2.2, ?_⟩
          refine List.mem_append.mpr (Or.inl ?_)
          rw [backStep_linear lr j l g (hll ▸ hty), hij]
          exact List.mem_cons_of_mem _ (List.mem_cons_self _ _)
        · obtain ⟨dW, dB, hm⟩ := (ih _).mpr ⟨l1, hmem, hty⟩
          exact ⟨dW, dB, List.mem_append.mpr (Or.inr hm)⟩

/-- A single-return backward event for index `i` occurs in the
backpropagation loop over the indexed layers `ps` exactly when `ps` carries
a layer at `i` whose type tag is not `Linear`. -/
theorem bwd_mem_backpropAux (lr : ℚ) (i : ℕ) :
    ∀ (ps : List (ℕ × Layer V)) (g : V),
      (∃ gin gout, Ev.bwd i gin gout ∈ (backpropAux lr ps g).2.2) ↔
        ∃ l, (i, l) ∈ ps ∧ l.type ≠ "Linear" := by
  intro ps
  induction ps with
  | nil =>
    intro g
    simp [backpropAux]
  | cons p rest ih =>
    intro g
    cases p with
    | mk j l =>
      rw [backpropAux_cons]
      constructor
      · rintro ⟨gin, gout, hm⟩
        rcases List.mem_append.mp hm with hm1 | hm2
        · by_cases h : l.type = "Linear"
          · rw [backStep_linear lr j l g h] at hm1
            rcases List.mem_cons.mp hm1 with he | hm1x
            · exact absurd he (by simp)
            · rcases List.mem_cons.mp hm1x with he | hx
              · exact absurd he (by simp)
              · simp at hx
          · rw [backStep_other lr j l g h] at hm1
            rcases List.mem_cons.mp hm1 with he | hx
            · have hij : i = j := by
                injection he
              exact ⟨l, by rw [hij]; exact List.mem_cons_self _ _, h⟩
            · simp at hx
        · obtain ⟨l1, hl1, hty⟩ := (ih _).mp ⟨gin, gout, hm2⟩
          exact ⟨l1, List.mem_cons_of_mem _ hl1, hty⟩
      · rintro ⟨l1, hl1, hty⟩
        rcases List.mem_cons.mp hl1 with he | hmem
        · have hij : i = j := by
            injection he with h1 h2
          have hll : l1 = l := by
            injection he with h1 h2
          refine ⟨g, l.backwardFn l.params g, ?_⟩
          refine List.mem_append.mpr (Or.inl ?_)
          rw [backStep_other lr j l g (hll ▸ hty), hij]
          exact List.mem_cons_self _ _
        · obtain ⟨gin, gout, hm⟩ := (ih _).mpr ⟨l1, hmem, hty⟩
          exact ⟨gin, gout, List.mem_append.mpr (Or.inr hm)⟩

/-- C9: in the backward pass a layer's optimize step is invoked if and only
if that layer's type tag is exactly the string `Linear`; a layer with any
other tag only gets the single-return backward call (a `bwd` event) and is
never optimized, regardless of what it carries. -/
theorem c9_optimize_iff_linear_tag (lr : ℚ) (ls : List (Layer V)) (g : V)
    (i : ℕ) :
    ((∃ dW dB, Ev.opt i dW dB lr ∈ (backprop lr ls g).2.2) ↔
        ∃ h : i < ls.length, (ls.get ⟨i, h⟩).type = "Linear") ∧
    ((∃ gin gout, Ev.bwd i gin gout ∈ (backprop lr ls g).2.2) ↔
        ∃ h : i < ls.length, (ls.get ⟨i, h⟩).type ≠ "Linear") := by
  have htr : (backprop lr ls g).2.2 = (backpropAux lr ls.enum.reverse g).2.2 := rfl
  have hmem : ∀ (l : Layer V), ((i, l) ∈ ls.enum.reverse) ↔ ls.get? i = some l := by
    intro l
    rw [List.mem_reverse]
    exact List.mem_enum_iff_get?
  constructor
  · rw [htr, opt_mem_backpropAux]
    constructor
    · rintro ⟨l, hl, hty⟩
      obtain ⟨h, hg⟩ := List.get?_eq_some.mp ((hmem l).mp hl)
      exact ⟨h, by rw [hg]; exact hty⟩
    · rintro ⟨h, hty⟩
      exact ⟨ls.get ⟨i, h⟩, (hmem _).mpr (List.get?_eq_some.mpr ⟨h, rfl⟩), hty⟩
  · rw [htr, bwd_mem_backpropAux]
    constructor
    · rintro ⟨l, hl, hty⟩
      obtain ⟨h, hg⟩ := List.get?_eq_some.mp ((hmem l).mp hl)
      exact ⟨h, by rw [hg]; exact hty⟩
    · rintro ⟨h, hty⟩
      exact ⟨ls.get ⟨i, h⟩, (hmem _).mpr (List.get?_eq_some.mpr ⟨h, rfl⟩), hty⟩

/-- With a selector outside the supported set, `_run_epoch` raises the
`ValueError` naming the selector, with the model state untouched. -/
theorem runEpoch_unsupported (L : LossDefs V) (m : Model V) (X Y : V)
    (lr : ℚ) (sel : String) (h1 : sel ≠ "BinaryCrossEntropy")
    (h2 : sel ≠ "MeanSquaredError") :
    runEpoch L m X Y lr sel =
      Except.error (EpochErr.valueError (sel ++ " is not supported."), m) := by
  simp [runEpoch, h1, h2]

/-- With a supported selector and a non-empty layer list, `_run_epoch`
returns normally: the error is the selected loss forward value on the
forward output, the initial gradient is the selected loss backward value,
and the rest is `epochFinish`. -/
theorem runEpoch_ok (L : LossDefs V) (m : Model V) (X Y : V) (lr : ℚ)
    (sel : String) (hne : m.layers ≠ [])
    (hsel : sel = "BinaryCrossEntropy" ∨ sel = "MeanSquaredError") :
    runEpoch L m X Y lr sel =
      Except.ok (epochFinish m lr (epochError L X Y sel m)
        (epochGrad L X Y sel m)) := by
  rcases hsel with h | h <;> subst h <;>
    simp [runEpoch, forwardOpt_of_ne_nil _ _ hne, epochError, epochGrad]

/-- Every normal return of `_run_epoch` is an `epochFinish` of the input
state: the forward output is threaded into a loss unit and then into the
backward pass. -/
theorem runEpoch_ok_inv (L : LossDefs V) (m : Model V) (X Y : V) (lr : ℚ)
    (sel : String) (r : Model V × V × List (Ev V))
    (h : runEpoch L m X Y lr sel = Except.ok r) :
    ∃ err grad, r = epochFinish m lr err grad := by
  by_cases h1 : sel = "BinaryCrossEntropy"
  · subst h1
    simp only [runEpoch, if_pos rfl] at h
    cases hf : forwardOpt m.layers X <;> rw [hf] at h
    · cases h
    · exact ⟨_, _, (Except.ok.inj h).symm⟩
  · by_cases h2 : sel = "MeanSquaredError"
    · subst h2
      simp only [runEpoch] at h
      rw [if_pos trivial] at h
      cases hf : forwardOpt m.layers X <;> rw [hf] at h
      · cases h
      · exact ⟨_, _, (Except.ok.inj h).symm⟩
    · rw [runEpoch_unsupported L m X Y lr sel h1 h2] at h
      cases h

/-- One epoch never changes the number of layers. -/
theorem stepModel_layers_length (L : LossDefs V) (X Y : V) (lr : ℚ)
    (sel : String) (m : Model V) :
    (stepModel L X Y lr sel m).layers.length = m.layers.length := by
  unfold stepModel
  cases h : runEpoch L m X Y lr sel with
  | error e => rfl
  | ok r =>
    obtain ⟨err, grad, hr⟩ := runEpoch_ok_inv L m X Y lr sel r h
    subst hr
    simp [epochFinish, backprop_length]

/-- Iterating epochs never changes the number of layers. -/
theorem iterate_stepModel_layers_length (L : LossDefs V) (X Y : V) (lr : ℚ)
    (sel : String) (m : Model V) (k : ℕ) :
    ((stepModel L X Y lr sel)^[k] m).layers.length = m.layers.length := by
  induction k generalizing m with
  | zero => rfl
  | succ k ih =>
    rw [Function.iterate_succ_apply]
    rw [ih (stepModel L X Y lr sel m), stepModel_layers_length]

/-- Under a supported selector and a non-empty layer list, one epoch maps
the state to the backpropagated layers and appends the epoch error to the
loss history. -/
theorem stepModel_eq (L : LossDefs V) (X Y : V) (lr : ℚ) (sel : String)
    (m : Model V) (hne : m.layers ≠ [])
    (hsel : sel = "BinaryCrossEntropy" ∨ sel = "MeanSquaredError") :
    stepModel L X Y lr sel m =
      { layers := (backprop lr m.layers (epochGrad L X Y sel m)).1,
        loss := m.loss ++ [epochError L X Y sel m] } := by
  simp [stepModel, runEpoch_ok L m X Y lr sel hne hsel, epochFinish]

/-- C3: calling `train` with a loss selector outside the supported set
raises the unsupported-configuration `ValueError` and the failing call
leaves the model exactly as it was: no layer parameter is mutated, no
optimize step runs, and the loss history is unchanged (the error carries
the model state at raise time, which equals the input state). -/
theorem c3_unsupported_selector_fails_fast (L : LossDefs V) (m : Model V)
    (X Y : V) (lr : ℚ) (epochs : ℤ) (sel : String) (verbose : Bool)
    (h1 : sel ≠ "BinaryCrossEntropy") (h2 : sel ≠ "MeanSquaredError")
    (hep : 1 ≤ epochs) :
    train L m X Y lr epochs sel verbose =
      Except.error (EpochErr.valueError (sel ++ " is not supported."), m) := by
  have hk : epochs.toNat = (epochs.toNat - 1) + 1 := by omega
  unfold train
  rw [hk]
  simp only [trainGo, runEpoch_unsupported L m X Y lr sel h1 h2]

/-- Witness for C3 at a concrete model and the selector `CrossEntropy`. -/
theorem c3_unsupported_selector_fails_fast_witness :
    train cLossDefs cModel 1 0 1 5 "CrossEntropy" true =
      Except.error
        (EpochErr.valueError ("CrossEntropy" ++ " is not supported."), cModel) :=
  c3_unsupported_selector_fails_fast cLossDefs cModel 1 0 1 5 "CrossEntropy"
    true (by decide) (by decide) (by decide)

/-- C4: loss dispatch succeeds exactly on the strings
`BinaryCrossEntropy` and `MeanSquaredError`, constructing the
corresponding loss unit from the forward output and the targets; any other
string raises a `ValueError` whose message names the invalid selector. -/
theorem c4_loss_dispatch_exact_match (L : LossDefs V) (m : Model V)
    (X Y : V) (lr : ℚ) (sel : String) (hne : m.layers ≠ []) :
    ((∃ r, runEpoch L m X Y lr sel = Except.ok r) ↔
        (sel = "BinaryCrossEntropy" ∨ sel = "MeanSquaredError")) ∧
    (sel = "BinaryCrossEntropy" →
      runEpoch L m X Y lr sel =
        Except.ok (epochFinish m lr (L.bceF (forwardPass m.layers X) Y)
          (L.bceB (forwardPass m.layers X) Y))) ∧
    (sel = "MeanSquaredError" →
      runEpoch L m X Y lr sel =
        Except.ok (epochFinish m lr (L.mseF (forwardPass m.layers X) Y)
          (L.mseB (forwardPass m.layers X) Y))) ∧
    (sel ≠ "BinaryCrossEntropy" → sel ≠ "MeanSquaredError" →
      runEpoch L m X Y lr sel =
        Except.error (EpochErr.valueError (sel ++ " is not supported."), m)) := by
  refine ⟨⟨?_, ?_⟩, ?_, ?_, ?_⟩
  · rintro ⟨r, hr⟩
    by_contra hno
    push_neg at hno
    rw [runEpoch_unsupported L m X Y lr sel hno.1 hno.2] at hr
    cases hr
  · intro hsel
    exact ⟨_, runEpoch_ok L m X Y lr sel hne hsel⟩
  · intro h
    subst h
    rw [runEpoch_ok L m X Y lr _ hne (Or.inl rfl)]
    simp [epochError, epochGrad]
  · intro h
    subst h
    rw [runEpoch_ok L m X Y lr _ hne (Or.inr rfl)]
    simp [epochError, epochGrad]
  · exact runEpoch_unsupported L m X Y lr sel

/-- Witness for C4 at a concrete model and the selector `Hinge`. -/
theorem c4_loss_dispatch_exact_match_witness :
    runEpoch cLossDefs cModel 1 0 1 "Hinge" =
      Except.error (EpochErr.valueError ("Hinge" ++ " is not supported."), cModel) :=
  (c4_loss_dispatch_exact_match cLossDefs cModel 1 0 1 "Hinge"
      (by simp [cModel])).2.2.2 (by decide) (by decide)

/-- C10: `train` with a non-positive epoch count executes zero epochs and
returns normally with the model untouched, an empty print list and no
error, whatever the selector is. -/
theorem c10_nonpositive_epochs_noop (L : LossDefs V) (m : Model V) (X Y : V)
    (lr : ℚ) (epochs : ℤ) (sel : String) (verbose : Bool)
    (hep : epochs ≤ 0) :
    train L m X Y lr epochs sel verbose = Except.ok (m, []) := by
  unfold train
  rw [Int.toNat_of_nonpos hep]
  rfl

/-- Witness for C10 with a negative epoch count and an unsupported
selector. -/
theorem c10_nonpositive_epochs_noop_witness :
    train cLossDefs cModel 1 0 1 (-3) "Bogus" true = Except.ok (cModel, []) :=
  c10_nonpositive_epochs_noop cLossDefs cModel 1 0 1 (-3) "Bogus" true
    (by decide)

/-- The training loop on a non-empty model with a supported selector always
returns normally; the final state is the epoch step iterated, and the
printed lines are exactly `printsAux` when verbose. -/
theorem trainGo_eq (L : LossDefs V) (X Y : V) (lr : ℚ) (sel : String)
    (verbose : Bool)
    (hsel : sel = "BinaryCrossEntropy" ∨ sel = "MeanSquaredError") :
    ∀ (k e : ℕ) (m : Model V) (out : List (ℕ × V)), m.layers ≠ [] →
      trainGo L X Y lr sel verbose k e m out =
        Except.ok ((stepModel L X Y lr sel)^[k] m,
          out ++ (if verbose then printsAux L X Y lr sel e k m else [])) := by
  intro k
  induction k with
  | zero =>
    intro e m out hne
    cases verbose <;> simp [trainGo, printsAux]
  | succ k ih =>
    intro e m out hne
    have hrun := runEpoch_ok L m X Y lr sel hne hsel
    have hstep : stepModel L X Y lr sel m =
        (epochFinish m lr (epochError L X Y sel m) (epochGrad L X Y sel m)).1 := by
      simp [stepModel, hrun]
    have hne2 : (stepModel L X Y lr sel m).layers ≠ [] := by
      have hlen := stepModel_layers_length L X Y lr sel m
      intro hcon
      rw [hcon] at hlen
      exact hne (List.length_eq_zero.mp hlen.symm)
    have herr : (epochFinish m lr (epochError L X Y sel m)
        (epochGrad L X Y sel m)).2.1 = epochError L X Y sel m := rfl
    simp only [trainGo, hrun]
    rw [← hstep]
    rw [ih (e + 1) (stepModel L X Y lr sel m) _ hne2]
    cases verbose
    · simp [Function.iterate_succ_apply]
    · by_cases h50 : e % 50 = 0 <;>
        simp [printsAux, h50, herr, Function.iterate_succ_apply,
          List.append_assoc]

/-- Iterating epochs keeps the layer list non-empty. -/
theorem iterate_stepModel_ne_nil (L : LossDefs V) (X Y : V) (lr : ℚ)
    (sel : String) (m : Model V) (hne : m.layers ≠ []) (k : ℕ) :
    ((stepModel L X Y lr sel)^[k] m).layers ≠ [] := by
  have hlen := iterate_stepModel_layers_length L X Y lr sel m k
  intro hcon
  rw [hcon] at hlen
  exact hne (List.length_eq_zero.mp hlen.symm)

/-- After `k` epochs the loss history is the original history extended by
`k` new entries. -/
theorem iterate_stepModel_loss (L : LossDefs V) (X Y : V) (lr : ℚ)
    (sel : String) (m : Model V) (hne : m.layers ≠ [])
    (hsel : sel = "BinaryCrossEntropy" ∨ sel = "MeanSquaredError") (k : ℕ) :
    ∃ t : List V, ((stepModel L X Y lr sel)^[k] m).loss = m.loss ++ t ∧
      t.length = k := by
  induction k with
  | zero => exact ⟨[], by simp⟩
  | succ k ih =>
    obtain ⟨t, ht, hlen⟩ := ih
    rw [Function.iterate_succ_apply',
      stepModel_eq L X Y lr sel _ (iterate_stepModel_ne_nil L X Y lr sel m hne k) hsel]
    exact ⟨t ++ [epochError L X Y sel ((stepModel L X Y lr sel)^[k] m)],
      by simp [ht], by simp [hlen]⟩

/-- C5: under a supported selector, `train` completes all `k` epochs; every
epoch appends exactly one element to the loss history, namely the selected
loss `forward()` value on that epoch's forward output and the targets, and
the history is append-only: after `k` epochs its length has grown by
exactly `k` and the original entries are an unchanged prefix. -/
theorem c5_loss_history_append_only (L : LossDefs V) (m : Model V) (X Y : V)
    (lr : ℚ) (sel : String) (k : ℕ) (verbose : Bool) (hne : m.layers ≠ [])
    (hsel : sel = "BinaryCrossEntropy" ∨ sel = "MeanSquaredError") :
    (∃ out, train L m X Y lr (k : ℤ) sel verbose =
        Except.ok ((stepModel L X Y lr sel)^[k] m, out)) ∧
    (∀ j : ℕ, ((stepModel L X Y lr sel)^[j + 1] m).loss =
        ((stepModel L X Y lr sel)^[j] m).loss ++
          [epochError L X Y sel ((stepModel L X Y lr sel)^[j] m)]) ∧
    ((stepModel L X Y lr sel)^[k] m).loss.length = m.loss.length + k ∧
    m.loss <+: ((stepModel L X Y lr sel)^[k] m).loss := by
  refine ⟨?_, ?_, ?_, ?_⟩
  · refine ⟨if verbose then printsAux L X Y lr sel 0 k m else [], ?_⟩
    unfold train
    rw [Int.toNat_natCast]
    simpa using trainGo_eq L X Y lr sel verbose hsel k 0 m [] hne
  · intro j
    rw [Function.iterate_succ_apply',
      stepModel_eq L X Y lr sel _ (iterate_stepModel_ne_nil L X Y lr sel m hne j) hsel]
  · obtain ⟨t, ht, hlen⟩ := iterate_stepModel_loss L X Y lr sel m hne hsel k
    rw [ht]
    simp [hlen]
  · obtain ⟨t, ht, hlen⟩ := iterate_stepModel_loss L X Y lr sel m hne hsel k
    rw [ht]
    exact List.prefix_append _ _

/-- Witness for C5: two epochs on a concrete model grow the loss history by
exactly two entries. -/
theorem c5_loss_history_append_only_witness :
    ((stepModel cLossDefs 1 0 1 "MeanSquaredError")^[2] cModel).loss.length =
      cModel.loss.length + 2 :=
  (c5_loss_history_append_only cLossDefs cModel 1 0 1 "MeanSquaredError" 2
      false (by simp [cModel]) (Or.inr rfl)).2.2.1

/-- The epoch indices of the printed progress lines, starting at epoch `e`
with `k` epochs to go, are exactly the indices in `[e, e+k)` divisible by
50. -/
theorem printsAux_map_fst (L : LossDefs V) (X Y : V) (lr : ℚ)
    (sel : String) :
    ∀ (k e : ℕ) (m : Model V),
      (printsAux L X Y lr sel e k m).map Prod.fst =
        ((List.range k).map (fun j => e + j)).filter (fun j => j % 50 = 0) := by
  intro k
  induction k with
  | zero =>
    intro e m
    simp [printsAux]
  | succ k ih =>
    intro e m
    have hr : List.range (k + 1) = 0 :: (List.range k).map (· + 1) :=
      List.range_succ_eq_map k
    have hmap : ((List.range k).map ((fun j => e + j) ∘ fun x => x + 1)) =
        (List.range k).map fun j => (e + 1) + j := by
      refine List.map_congr_left ?_
      intro a _
      show e + (a + 1) = e + 1 + a
      omega
    rw [hr]
    by_cases h50 : e % 50 = 0 <;>
      simp [printsAux, h50, ih (e + 1), List.filter_cons, List.map_map, hmap]

/-- Every printed progress line reports the loss of the epoch whose index
it carries. -/
theorem printsAux_val (L : LossDefs V) (X Y : V) (lr : ℚ) (sel : String) :
    ∀ (k e : ℕ) (m : Model V) (p : ℕ × V), p ∈ printsAux L X Y lr sel e k m →
      e ≤ p.1 ∧
        p.2 = epochError L X Y sel ((stepModel L X Y lr sel)^[p.1 - e] m) := by
  intro k
  induction k with
  | zero =>
    intro e m p hp
    simp [printsAux] at hp
  | succ k ih =>
    intro e m p hp
    rw [printsAux] at hp
    rcases List.mem_append.mp hp with h1 | h2
    · by_cases h50 : e % 50 = 0
      · rw [if_pos h50] at h1
        rcases List.mem_cons.mp h1 with he | hx
        · subst he
          exact ⟨Nat.le_refl e, by simp⟩
        · simp at hx
      · rw [if_neg h50] at h1
        simp at h1
    · obtain ⟨hle, hval⟩ := ih (e + 1) (stepModel L X Y lr sel m) p h2
      refine ⟨by omega, ?_⟩
      rw [hval]
      have hsub : p.1 - e = (p.1 - (e + 1)) + 1 := by omega
      rw [hsub, Function.iterate_succ_apply]

/-- C7: with `verbose=True` and a supported selector on a non-empty model,
`train` prints exactly at the epoch indices divisible by 50 (starting at
epoch 0) and at no others, each line reporting the epoch index and that
epoch's loss; with `epochs=150` the reported indices are exactly 0, 50 and
100. -/
theorem c7_verbose_prints_every_50 (L : LossDefs V) (m : Model V) (X Y : V)
    (lr : ℚ) (sel : String) (n : ℕ) (hne : m.layers ≠ [])
    (hsel : sel = "BinaryCrossEntropy" ∨ sel = "MeanSquaredError") :
    train L m X Y lr (n : ℤ) sel true =
      Except.ok ((stepModel L X Y lr sel)^[n] m,
        printsAux L X Y lr sel 0 n m) ∧
    (printsAux L X Y lr sel 0 n m).map Prod.fst =
      (List.range n).filter (fun j => j % 50 = 0) ∧
    (∀ p ∈ printsAux L X Y lr sel 0 n m,
      p.2 = epochError L X Y sel ((stepModel L X Y lr sel)^[p.1] m)) ∧
    (n = 150 →
      (printsAux L X Y lr sel 0 n m).map Prod.fst = [0, 50, 100]) := by
  have hfst : (printsAux L X Y lr sel 0 n m).map Prod.fst =
      (List.range n).filter (fun j => j % 50 = 0) := by
    rw [printsAux_map_fst]
    congr 1
    simp
  refine ⟨?_, hfst, ?_, ?_⟩
  · unfold train
    rw [Int.toNat_natCast]
    simpa using trainGo_eq L X Y lr sel true hsel n 0 m [] hne
  · intro p hp
    have hv := (printsAux_val L X Y lr sel n 0 m p hp).2
    simpa using hv
  · intro hn
    subst hn
    rw [hfst]
    decide

/-- Witness for C7: 51 epochs on a concrete model print exactly at epochs 0
and 50. -/
theorem c7_verbose_prints_every_50_witness :
    (printsAux cLossDefs 1 0 1 "MeanSquaredError" 0 51 cModel).map Prod.fst =
      (List.range 51).filter (fun j => j % 50 = 0) :=
  (c7_verbose_prints_every_50 cLossDefs cModel 1 0 1 "MeanSquaredError" 51
      (by simp [cModel]) (Or.inr rfl)).2.1

/-- C6: the epoch routine is deterministic.  `runEpoch` is a run of the
epoch big-step relation, and any two runs of that relation from the same
layer parameters, `X`, `Y`, learning rate and selector produce the same
outcome — the same scalar error, the same parameter updates and the same
event trace (no hidden randomness in the core). -/
theorem c6_epoch_deterministic (L : LossDefs V) (m : Model V) (X Y : V)
    (lr : ℚ) (sel : String) :
    EpochRel L X Y lr m sel (runEpoch L m X Y lr sel) ∧
    ∀ r1 r2, EpochRel L X Y lr m sel r1 → EpochRel L X Y lr m sel r2 →
      r1 = r2 := by
  constructor
  · by_cases h1 : sel = "BinaryCrossEntropy"
    · subst h1
      cases hf : forwardOpt m.layers X with
      | none =>
        have hre : runEpoch L m X Y lr "BinaryCrossEntropy" =
            Except.error (EpochErr.nameError, m) := by
          simp [runEpoch, hf]
        rw [hre]
        exact EpochRel.bceEmpty rfl hf
      | some f =>
        have hre : runEpoch L m X Y lr "BinaryCrossEntropy" =
            Except.ok (epochFinish m lr (L.bceF f Y) (L.bceB f Y)) := by
          simp [runEpoch, hf]
        rw [hre]
        exact EpochRel.bce f rfl hf
    · by_cases h2 : sel = "MeanSquaredError"
      · subst h2
        cases hf : forwardOpt m.layers X with
        | none =>
          have hre : runEpoch L m X Y lr "MeanSquaredError" =
              Except.error (EpochErr.nameError, m) := by
            simp [runEpoch, hf]
          rw [hre]
          exact EpochRel.mseEmpty rfl hf
        | some f =>
          have hre : runEpoch L m X Y lr "MeanSquaredError" =
              Except.ok (epochFinish m lr (L.mseF f Y) (L.mseB f Y)) := by
            simp [runEpoch, hf]
          rw [hre]
          exact EpochRel.mse f rfl hf
      · rw [runEpoch_unsupported L m X Y lr sel h1 h2]
        exact EpochRel.unsupported h1 h2
  · intro r1 r2 h1 h2
    cases h1 <;> cases h2 <;> simp_all

/-- Witness for C6: determinism applied at a concrete model pins the
concrete epoch outcome. -/
theorem c6_epoch_deterministic_witness :
    runEpoch cLossDefs cModel 1 0 1 "BinaryCrossEntropy" =
      Except.ok (epochFinish cModel 1 (cLossDefs.bceF 2 0)
        (cLossDefs.bceB 2 0)) :=
  (c6_epoch_deterministic cLossDefs cModel 1 0 1 "BinaryCrossEntropy").2 _ _
    (c6_epoch_deterministic cLossDefs cModel 1 0 1 "BinaryCrossEntropy").1
    (EpochRel.bce 2 rfl (by decide))

end Freya
